/-
A formal model, in Lean 4, of the core of the `rockon-validator` program:
the Rock-on data model with its custom JSON (un)marshalling
(`model/rockon.go`), the canonical serializer `RockOn.ToJSON`, the index
reconciler `checkRootMap`, and the orchestration in `main` (file loop,
exit codes).  The Go standard library behaviour the program relies on
(`encoding/json` parsing and encoding, `strconv.ParseUint` /
`strconv.ParseInt` / `strconv.Itoa`, `strings.ReplaceAll`, the `path/filepath`
helpers) is embedded explicitly.

Modelling conventions:
* Go strings are modelled as Lean `String` (sequences of unicode scalar
  values); byte-level invalid-UTF-8 corner cases are outside the model.
* Go maps are modelled as association lists with pairwise-distinct keys,
  in which the list order stands for one admissible (unspecified) Go map
  iteration order; JSON serialization of maps sorts keys, as Go does.
* Machine integers are `Nat`/`Int` with explicit range checks where
  `strconv` performs them.
* A Go runtime panic (out-of-range slice index) is modelled by `Option`
  (`none` = panic).
-/
import Mathlib

set_option maxRecDepth 16384

/-! ## JSON values

The result of Go's `encoding/json` syntax layer.  A number keeps its raw
source token (Go hands custom unmarshallers the raw bytes of the token);
an object keeps its fields in source order, duplicates included (Go
processes object members in source order, later members overwriting
earlier ones). -/

inductive JValue where
  | null
  | bool (b : Bool)
  | num (tok : String)
  | str (s : String)
  | arr (elems : List JValue)
  | obj (fields : List (String × JValue))
deriving Repr

/-! ## strconv: decimal printing and parsing -/

/-- The decimal digit character for `n < 10`. -/
def digitChar (n : Nat) : Char :=
  Char.ofNat (48 + n)

/-- Lower-case hexadecimal digit character for `n < 16`, as in Go's
`encoding/json` `hex = "0123456789abcdef"`. -/
def hexChar (n : Nat) : Char :=
  if n < 10 then Char.ofNat (48 + n) else Char.ofNat (87 + n)

/-- Decimal digits of `n`, most significant first (fuel-driven so that it
reduces definitionally; `fuel ≥ n` suffices). -/
def natDecimalAux (fuel : Nat) (n : Nat) : List Char :=
  match fuel with
  | 0 => []
  | fuel + 1 =>
    if n < 10 then [digitChar n]
    else natDecimalAux fuel (n / 10) ++ [digitChar (n % 10)]

/-- Decimal representation of a natural number, as produced by Go's
`strconv` formatting of unsigned integers. -/
def natDecimal (n : Nat) : String :=
  String.mk (natDecimalAux (n + 1) n)

/-- Decimal representation of an integer: `strconv.Itoa`. -/
def intDecimal (i : Int) : String :=
  if i < 0 then String.mk ('-' :: natDecimalAux (i.natAbs + 1) i.natAbs)
  else natDecimal i.toNat

def isDigitChar (c : Char) : Bool :=
  48 ≤ c.toNat && c.toNat ≤ 57

/-- Numeric value of a list of decimal digit characters (most significant
first). -/
def decimalValue (cs : List Char) : Nat :=
  cs.foldl (fun a c => 10 * a + (c.toNat - 48)) 0

/-- Go `strconv.ParseUint(s, 10, 0)` on a 64-bit platform (the program is
built for GOARCH=amd64, so `uint` is 64 bits wide): accepts a non-empty
string of decimal digits, no sign, value below `2^64`; anything else is an
error (`none`). -/
def goParseUint (s : String) : Option Nat :=
  if s.data ≠ [] && s.data.all isDigitChar && decimalValue s.data < 2 ^ 64 then
    some (decimalValue s.data)
  else
    none

/-- Go `strconv.ParseInt(s, 10, 64)`: an optional `+`/`-` sign followed by
decimal digits, value within the signed 64-bit range. -/
def goParseInt (s : String) : Option Int :=
  match s.data with
  | [] => none
  | c :: rest =>
    if c = '-' then
      if rest ≠ [] && rest.all isDigitChar && decimalValue rest ≤ 2 ^ 63 then
        some (-(decimalValue rest : Int))
      else none
    else if c = '+' then
      if rest ≠ [] && rest.all isDigitChar && decimalValue rest < 2 ^ 63 then
        some (decimalValue rest : Int)
      else none
    else
      if (c :: rest).all isDigitChar && decimalValue (c :: rest) < 2 ^ 63 then
        some (decimalValue (c :: rest) : Int)
      else none

/-! ## strings.ReplaceAll -/

/-- Does `pat` occur as a prefix of `cs`? -/
def listStartsWith : List Char → List Char → Bool
  | [], _ => true
  | _ :: _, [] => false
  | p :: ps, c :: cs => p = c && listStartsWith ps cs

/-- One left-to-right pass of non-overlapping replacement (the replacement
text is not rescanned), as `strings.Replace(s, old, new, -1)` does.
Fuel-driven; `fuel ≥ length cs` suffices when `pat` is non-empty. -/
def replaceAllAux (pat rep : List Char) (fuel : Nat) (cs : List Char) : List Char :=
  match fuel with
  | 0 => cs
  | fuel + 1 =>
    match cs with
    | [] => []
    | c :: rest =>
      if listStartsWith pat (c :: rest) then
        rep ++ replaceAllAux pat rep fuel (List.drop pat.length (c :: rest))
      else
        c :: replaceAllAux pat rep fuel rest

/-- Go `strings.ReplaceAll(s, old, new)` for non-empty `old`. -/
def goReplaceAll (s old new : String) : String :=
  String.mk (replaceAllAux old.data new.data (s.data.length + 1) s.data)

/-! ## encoding/json string quoting

Go's encoder escapes the double quote and the backslash, renders newline,
carriage return and tab with their short escapes, other control
characters as a backslash-u escape with two lower-case hex digits, and
the line/paragraph separators U+2028/U+2029 as backslash-u escapes.  When
HTML escaping is on (the default, used by the `json.Marshal` call inside
`RockonDetails.MarshalJSON`), the characters LT, GT and AMP become the
six-character sequences backslash-u003c, backslash-u003e and
backslash-u0026; the top-level encoder in `RockOn.ToJSON` has
`SetEscapeHTML(false)` instead. -/

def quoteChar (escapeHTML : Bool) (c : Char) : List Char :=
  if c = '"' then ['\\', '"']
  else if c = '\\' then ['\\', '\\']
  else if escapeHTML && (c = '<' || c = '>' || c = '&') then
    ['\\', 'u', '0', '0', hexChar (c.toNat / 16), hexChar (c.toNat % 16)]
  else if c = '\n' then ['\\', 'n']
  else if c = '\r' then ['\\', 'r']
  else if c = '\t' then ['\\', 't']
  else if c.toNat < 32 then
    ['\\', 'u', '0', '0', hexChar (c.toNat / 16), hexChar (c.toNat % 16)]
  else if c.toNat = 8232 || c.toNat = 8233 then
    ['\\', 'u', '2', '0', '2', hexChar (c.toNat % 16)]
  else [c]

/-- A JSON string literal for `s`, quotes included. -/
def quoteString (escapeHTML : Bool) (s : String) : String :=
  String.mk ('"' :: s.data.flatMap (quoteChar escapeHTML) ++ ['"'])

/-! ## The Rock-on data model (`model/rockon.go`)

`UintValue` is `Nat` (decoded values are below `2^64`), `StrValue` and
`Protocol` are `String`.  Go maps are association lists; the two fields
without `omitempty` whose type is a map (`containers`, `ports`)
distinguish a nil map (encoded as `null`) from an empty one (encoded as
an empty object), so they are wrapped in `Option`.  Slice-typed and
`omitempty` map fields never expose the nil/empty distinction on output,
so they are plain lists.  The Go `Option` type (a two-element array) is a
pair of strings here, to avoid clashing with Lean's `Option`. -/

structure UISlug where
  https : Bool
  slug : String
deriving DecidableEq, Repr

structure Port where
  description : String
  label : String
  hostDefault : Nat
  protocol : String
  ui : Bool
deriving DecidableEq, Repr

structure Volume where
  description : String
  label : String
  minSize : Nat
deriving DecidableEq, Repr

structure EnvironmentVar where
  description : String
  label : String
  index : Nat
  defaultVal : String
deriving DecidableEq, Repr

structure Device where
  description : String
  label : String
  index : Nat
deriving DecidableEq, Repr

structure CustomConfig where
  description : String
  label : String
deriving DecidableEq, Repr

structure ContainerLink where
  name : String
  sourceContainer : String
deriving DecidableEq, Repr

structure Container where
  image : String
  tag : String
  launchOrder : Nat
  ports : Option (List (String × Port))
  volumes : List (String × Volume)
  opts : List (String × String)
  cmdArguments : List (String × String)
  environment : List (String × EnvironmentVar)
  devices : List (String × Device)
deriving DecidableEq, Repr

structure RockonDetails where
  description : String
  version : String
  website : String
  icon : String
  moreInfo : String
  ui : Option UISlug
  volumeAddSupport : Bool
  containers : Option (List (String × Container))
  containerLinks : List (String × List ContainerLink)
  customConfig : List (String × CustomConfig)
deriving DecidableEq, Repr

/-- A map with a single entry, the Rock-on name (`type RockOn
map[string]RockonDetails`). -/
abbrev RockOn := List (String × RockonDetails)

/-- The zero `UISlug`, compared against in `RockonDetails.MarshalJSON`. -/
def zeroUISlug : UISlug := ⟨false, ""⟩

def zeroPort : Port := ⟨"", "", 0, "", false⟩

def zeroVolume : Volume := ⟨"", "", 0⟩

def zeroEnvVar : EnvironmentVar := ⟨"", "", 0, ""⟩

def zeroDevice : Device := ⟨"", "", 0⟩

def zeroCustomConfig : CustomConfig := ⟨"", ""⟩

def zeroContainerLink : ContainerLink := ⟨"", ""⟩

def zeroContainer : Container := ⟨"", "", 0, none, [], [], [], [], []⟩

def zeroDetails : RockonDetails :=
  ⟨"", "", "", "", "", none, false, none, [], []⟩

/-! ## Canonical serialization (`RockOn.ToJSON`)

Go's encoder serializes maps with keys in increasing (byte-wise, which
for valid UTF-8 equals code-point-wise) string order.  `sortPairs` is
that ordering, by insertion sort. -/

/-- Byte-wise (for valid UTF-8, equivalently code-point-wise) string
comparison, the order Go uses for map keys; kept executable so concrete
serializations evaluate by kernel reduction. -/
def charListLe : List Char → List Char → Bool
  | [], _ => true
  | _ :: _, [] => false
  | a :: as, b :: bs =>
    if a.toNat < b.toNat then true
    else if b.toNat < a.toNat then false
    else charListLe as bs

def strLeb (a b : String) : Bool := charListLe a.data b.data

def insertPair {α : Type} (p : String × α) : List (String × α) → List (String × α)
  | [] => [p]
  | q :: qs => if strLeb p.1 q.1 then p :: q :: qs else q :: insertPair p qs

def sortPairs {α : Type} : List (String × α) → List (String × α)
  | [] => []
  | p :: ps => insertPair p (sortPairs ps)

/-- Indentation: `n` copies of the indentation unit. -/
def indentOf (ind : String) (depth : Nat) : String :=
  String.join (List.replicate depth ind)

/-- An indented JSON object whose field values have already been
rendered: members on their own lines at `depth + 1`, closing brace at
`depth`; an empty object stays on one line.  This is the layout both of
Go's indenting encoder and of `json.Indent` applied to the compact bytes
a `MarshalJSON` method returns. -/
def jsonObject (ind : String) (depth : Nat) (fields : List (String × String)) : String :=
  match fields with
  | [] => "\x7b\x7d"
  | _ =>
    "\x7b\n" ++
      String.intercalate ",\n"
        (fields.map fun kv => indentOf ind (depth + 1) ++ kv.1 ++ ": " ++ kv.2) ++
      "\n" ++ indentOf ind depth ++ "\x7d"

/-- An indented JSON array whose items have already been rendered. -/
def jsonArray (ind : String) (depth : Nat) (items : List String) : String :=
  match items with
  | [] => "[]"
  | _ =>
    "[\n" ++
      String.intercalate ",\n" (items.map fun it => indentOf ind (depth + 1) ++ it) ++
      "\n" ++ indentOf ind depth ++ "]"

def renderBool (b : Bool) : String :=
  if b then "true" else "false"

/-- A field that carries `omitempty` contributes nothing when its value
is the zero value of its type. -/
def optField (present : Bool) (key value : String) : List (String × String) :=
  if present then [(key, value)] else []

/-- The document indentation unit: `enc.SetIndent("", "    ")`. -/
def docIndent : String := "    "

/-- Everything inside a `RockonDetails` value is marshalled by the plain
`json.Marshal` call in `RockonDetails.MarshalJSON`, which HTML-escapes
strings (the escapes are undone afterwards by the `ReplaceAll` fix-up in
`RockOn.ToJSON`). -/
def qd (s : String) : String := quoteString true s

def renderUISlug (depth : Nat) (u : UISlug) : String :=
  jsonObject docIndent depth
    (optField u.https "\"https\"" (renderBool u.https) ++
     optField (u.slug ≠ "") "\"slug\"" (qd u.slug))

def renderPort (depth : Nat) (p : Port) : String :=
  jsonObject docIndent depth
    ([("\"description\"", qd p.description), ("\"label\"", qd p.label),
      ("\"host_default\"", natDecimal p.hostDefault)] ++
     optField (p.protocol ≠ "") "\"protocol\"" (qd p.protocol) ++
     optField p.ui "\"ui\"" (renderBool p.ui))

def renderVolume (depth : Nat) (v : Volume) : String :=
  jsonObject docIndent depth
    ([("\"description\"", qd v.description), ("\"label\"", qd v.label)] ++
     optField (v.minSize ≠ 0) "\"min_size\"" (natDecimal v.minSize))

def renderEnvVar (depth : Nat) (e : EnvironmentVar) : String :=
  jsonObject docIndent depth
    ([("\"description\"", qd e.description), ("\"label\"", qd e.label)] ++
     optField (e.index ≠ 0) "\"index\"" (natDecimal e.index) ++
     optField (e.defaultVal ≠ "") "\"default\"" (qd e.defaultVal))

def renderDevice (depth : Nat) (d : Device) : String :=
  jsonObject docIndent depth
    ([("\"description\"", qd d.description), ("\"label\"", qd d.label)] ++
     optField (d.index ≠ 0) "\"index\"" (natDecimal d.index))

def renderCustomConfig (depth : Nat) (c : CustomConfig) : String :=
  jsonObject docIndent depth
    [("\"description\"", qd c.description), ("\"label\"", qd c.label)]

def renderContainerLink (depth : Nat) (l : ContainerLink) : String :=
  jsonObject docIndent depth
    [("\"name\"", qd l.name), ("\"source_container\"", qd l.sourceContainer)]

/-- A two-element `Option`/`CmdArgument` array. -/
def renderStrPair (depth : Nat) (p : String × String) : String :=
  jsonArray docIndent depth [qd p.1, qd p.2]

/-- A map-typed field: keys sorted, values rendered one level deeper. -/
def renderStrMap {α : Type} (depth : Nat) (renderVal : Nat → α → String)
    (m : List (String × α)) : String :=
  jsonObject docIndent depth
    ((sortPairs m).map fun kv => (qd kv.1, renderVal (depth + 1) kv.2))

def renderContainer (depth : Nat) (c : Container) : String :=
  jsonObject docIndent depth
    ([("\"image\"", qd c.image)] ++
     optField (c.tag ≠ "") "\"tag\"" (qd c.tag) ++
     [("\"launch_order\"", natDecimal c.launchOrder),
      ("\"ports\"",
        match c.ports with
        | none => "null"
        | some m => renderStrMap (depth + 1) renderPort m)] ++
     optField (c.volumes ≠ []) "\"volumes\"" (renderStrMap (depth + 1) renderVolume c.volumes) ++
     optField (c.opts ≠ []) "\"opts\""
       (jsonArray docIndent (depth + 1) (c.opts.map (renderStrPair (depth + 2)))) ++
     optField (c.cmdArguments ≠ []) "\"cmd_arguments\""
       (jsonArray docIndent (depth + 1) (c.cmdArguments.map (renderStrPair (depth + 2)))) ++
     optField (c.environment ≠ []) "\"environment\"" (renderStrMap (depth + 1) renderEnvVar c.environment) ++
     optField (c.devices ≠ []) "\"devices\"" (renderStrMap (depth + 1) renderDevice c.devices))

/-- Model of `RockonDetails.MarshalJSON`: a `UI` pointer to the zero `UISlug` is
replaced by nil before marshalling, so a present-but-empty UI-slug
descriptor is suppressed like an absent one. -/
def normalizeUI (u : Option UISlug) : Option UISlug :=
  match u with
  | some v => if v = zeroUISlug then none else some v
  | none => none

def renderDetails (depth : Nat) (d : RockonDetails) : String :=
  jsonObject docIndent depth
    ([("\"description\"", qd d.description), ("\"version\"", qd d.version),
      ("\"website\"", qd d.website)] ++
     optField (d.icon ≠ "") "\"icon\"" (qd d.icon) ++
     optField (d.moreInfo ≠ "") "\"more_info\"" (qd d.moreInfo) ++
     (match normalizeUI d.ui with
      | none => []
      | some u => [("\"ui\"", renderUISlug (depth + 1) u)]) ++
     optField d.volumeAddSupport "\"volume_add_support\"" (renderBool d.volumeAddSupport) ++
     [("\"containers\"",
        match d.containers with
        | none => "null"
        | some m => renderStrMap (depth + 1) renderContainer m)] ++
     optField (d.containerLinks ≠ []) "\"container_links\""
       (renderStrMap (depth + 1)
         (fun dep ls => jsonArray docIndent dep (ls.map (renderContainerLink (dep + 1))))
         d.containerLinks) ++
     optField (d.customConfig ≠ []) "\"custom_config\"" (renderStrMap (depth + 1) renderCustomConfig d.customConfig))

/-- Model of `RockOn.ToJSON`: the outer encoder (`SetEscapeHTML(false)`,
`SetIndent("", "    ")`) writes the top-level map with sorted keys — the
keys use the non-HTML escaping, while each `RockonDetails` value comes
from `RockonDetails.MarshalJSON` (HTML escaping on) and is re-indented —
then `Encode` appends a newline, and the three `strings.ReplaceAll`
calls rewrite the six-character sequences backslash-u0026,
backslash-u003c, backslash-u003e into `&`, `<`, `>`.  A nil `RockOn` map
(encoded `null`) is conflated with the empty one here; in `main` both
panic in `checkRootMap` before `ToJSON` can run. -/
def RockOn.toJSON (r : RockOn) : String :=
  let raw :=
    jsonObject docIndent 0
      ((sortPairs r).map fun kv => (quoteString false kv.1, renderDetails 1 kv.2)) ++ "\n"
  goReplaceAll (goReplaceAll (goReplaceAll raw "\\u0026" "&") "\\u003c" "<") "\\u003e" ">"

/-! ## encoding/json: the syntax layer

A recursive-descent parser for the JSON grammar exactly as Go's scanner
accepts it: optional whitespace (space, tab, newline, carriage return)
between tokens, no leading zeros or trailing garbage in numbers, no raw
control characters inside string literals, the eight single-character
escapes plus backslash-u with four hex digits, and surrogate pairs
combined (an unpaired surrogate becomes U+FFFD, as Go's `unquote` does
without erroring).  `json.Valid` and `json.Unmarshal` agree on this
grammar, and both reject trailing non-whitespace after the top value.
The parser is fuel-driven so that it evaluates by kernel reduction; the
fuel `length + 1` always suffices because every recursive step consumes
at least one character. -/

def isJsonWs (c : Char) : Bool :=
  c = ' ' || c = '\t' || c = '\n' || c = '\r'

def skipWs : List Char → List Char
  | [] => []
  | c :: cs => if isJsonWs c then skipWs cs else c :: cs

def hexVal (c : Char) : Option Nat :=
  if 48 ≤ c.toNat && c.toNat ≤ 57 then some (c.toNat - 48)
  else if 97 ≤ c.toNat && c.toNat ≤ 102 then some (c.toNat - 87)
  else if 65 ≤ c.toNat && c.toNat ≤ 70 then some (c.toNat - 55)
  else none

/-- Decode a backslash-u escape body: four hex digits. -/
def hex4 (a b c d : Char) : Option Nat :=
  match hexVal a, hexVal b, hexVal c, hexVal d with
  | some x, some y, some z, some w => some (((x * 16 + y) * 16 + z) * 16 + w)
  | _, _, _, _ => none

def isHighSurrogate (n : Nat) : Bool := 55296 ≤ n && n ≤ 56319

def isLowSurrogate (n : Nat) : Bool := 56320 ≤ n && n ≤ 57343

/-- Parse the body of a string literal (the opening quote already
consumed); returns the decoded characters and the input after the
closing quote. -/
def pString (fuel : Nat) (cs : List Char) : Option (List Char × List Char) :=
  match fuel with
  | 0 => none
  | fuel + 1 =>
    match cs with
    | [] => none
    | c :: rest =>
      if c = '"' then some ([], rest)
      else if c = '\\' then
        match rest with
        | [] => none
        | e :: rest2 =>
          if e = 'u' then
            match rest2 with
            | a :: b :: c2 :: d :: rest3 =>
              match hex4 a b c2 d with
              | none => none
              | some n =>
                if isHighSurrogate n then
                  -- A high surrogate pairs with an immediately following
                  -- backslash-u low surrogate; otherwise U+FFFD.
                  match rest3 with
                  | '\\' :: 'u' :: a2 :: b2 :: c3 :: d2 :: rest4 =>
                    match hex4 a2 b2 c3 d2 with
                    | some m =>
                      if isLowSurrogate m then
                        (fun r => (Char.ofNat (65536 + (n - 55296) * 1024 + (m - 56320)) :: r.1, r.2)) <$>
                          pString fuel rest4
                      else
                        (fun r => ('�' :: r.1, r.2)) <$> pString fuel rest3
                    | none =>
                      (fun r => ('�' :: r.1, r.2)) <$> pString fuel rest3
                  | _ =>
                    (fun r => ('�' :: r.1, r.2)) <$> pString fuel rest3
                else if isLowSurrogate n then
                  (fun r => ('�' :: r.1, r.2)) <$> pString fuel rest3
                else
                  (fun r => (Char.ofNat n :: r.1, r.2)) <$> pString fuel rest3
            | _ => none
          else
            match
              (if e = '"' then some '"'
               else if e = '\\' then some '\\'
               else if e = '/' then some '/'
               else if e = 'b' then some (Char.ofNat 8)
               else if e = 'f' then some (Char.ofNat 12)
               else if e = 'n' then some '\n'
               else if e = 'r' then some '\r'
               else if e = 't' then some '\t'
               else none) with
            | none => none
            | some d => (fun r => (d :: r.1, r.2)) <$> pString fuel rest2
      else if c.toNat < 32 then none
      else (fun r => (c :: r.1, r.2)) <$> pString fuel rest

def takeDigits : List Char → (List Char × List Char)
  | [] => ([], [])
  | c :: cs =>
    if isDigitChar c then
      let r := takeDigits cs
      (c :: r.1, r.2)
    else ([], c :: cs)

/-- Parse an optional exponent part after `tok`, completing a number
token. -/
def pNumberExp (tok : List Char) (cs : List Char) : Option (List Char × List Char) :=
  match cs with
  | 'e' :: rest =>
    let (sign2, rest2) :=
      match rest with
      | '+' :: r => (['+'], r)
      | '-' :: r => (['-'], r)
      | _ => (([] : List Char), rest)
    let r := takeDigits rest2
    if r.1 = [] then none
    else some (tok ++ ['e'] ++ sign2 ++ r.1, r.2)
  | 'E' :: rest =>
    let (sign2, rest2) :=
      match rest with
      | '+' :: r => (['+'], r)
      | '-' :: r => (['-'], r)
      | _ => (([] : List Char), rest)
    let r := takeDigits rest2
    if r.1 = [] then none
    else some (tok ++ ['E'] ++ sign2 ++ r.1, r.2)
  | _ => some (tok, cs)

/-- Parse a number token per the JSON grammar — an optional minus sign,
an integer part without leading zeros, an optional fraction, an optional
exponent; returns the raw token (handed as-is to custom unmarshallers)
and the rest of the input. -/
def pNumber (cs : List Char) : Option (List Char × List Char) :=
  let (sign, cs1) :=
    match cs with
    | '-' :: rest => (['-'], rest)
    | _ => (([] : List Char), cs)
  match cs1 with
  | [] => none
  | c :: rest =>
    if !isDigitChar c then none
    else
      let (intPart, cs2) :=
        if c = '0' then ([c], rest)
        else
          let r := takeDigits rest
          (c :: r.1, r.2)
      match cs2 with
      | '.' :: rest2 =>
        let r := takeDigits rest2
        if r.1 = [] then none
        else pNumberExp (sign ++ intPart ++ '.' :: r.1) r.2
      | _ => pNumberExp (sign ++ intPart) cs2

mutual

/-- Parse one JSON value starting at `cs` (no leading whitespace). -/
def pValue (fuel : Nat) (cs : List Char) : Option (JValue × List Char) :=
  match fuel with
  | 0 => none
  | fuel + 1 =>
    match cs with
    | 'n' :: 'u' :: 'l' :: 'l' :: rest => some (.null, rest)
    | 't' :: 'r' :: 'u' :: 'e' :: rest => some (.bool true, rest)
    | 'f' :: 'a' :: 'l' :: 's' :: 'e' :: rest => some (.bool false, rest)
    | '"' :: rest =>
      match pString fuel rest with
      | some (chars, rest2) => some (.str (String.mk chars), rest2)
      | none => none
    | '\x7b' :: rest =>
      match skipWs rest with
      | '\x7d' :: rest2 => some (.obj [], rest2)
      | rest2 =>
        match pMembers fuel rest2 with
        | some (fields, rest3) => some (.obj fields, rest3)
        | none => none
    | '[' :: rest =>
      match skipWs rest with
      | ']' :: rest2 => some (.arr [], rest2)
      | rest2 =>
        match pElems fuel rest2 with
        | some (elems, rest3) => some (.arr elems, rest3)
        | none => none
    | _ =>
      match pNumber cs with
      | some (tok, rest) => some (.num (String.mk tok), rest)
      | none => none

/-- Parse object members (at least one) starting at a key, up to and
including the closing brace. -/
def pMembers (fuel : Nat) (cs : List Char) : Option (List (String × JValue) × List Char) :=
  match fuel with
  | 0 => none
  | fuel + 1 =>
    match cs with
    | '"' :: rest =>
      match pString fuel rest with
      | none => none
      | some (key, rest2) =>
        match skipWs rest2 with
        | ':' :: rest3 =>
          match pValue fuel (skipWs rest3) with
          | none => none
          | some (v, rest4) =>
            match skipWs rest4 with
            | ',' :: rest5 =>
              match pMembers fuel (skipWs rest5) with
              | none => none
              | some (fields, rest6) => some ((String.mk key, v) :: fields, rest6)
            | '\x7d' :: rest5 => some ([(String.mk key, v)], rest5)
            | _ => none
        | _ => none
    | _ => none

/-- Parse array elements (at least one), up to and including the closing
bracket. -/
def pElems (fuel : Nat) (cs : List Char) : Option (List JValue × List Char) :=
  match fuel with
  | 0 => none
  | fuel + 1 =>
    match pValue fuel cs with
    | none => none
    | some (v, rest) =>
      match skipWs rest with
      | ',' :: rest2 =>
        match pElems fuel (skipWs rest2) with
        | none => none
        | some (elems, rest3) => some (v :: elems, rest3)
      | ']' :: rest2 => some ([v], rest2)
      | _ => none

end

/-- Go `encoding/json` parsing of a whole input: one value, surrounded by
optional whitespace, nothing after it.  `none` is a syntax error — the
same condition `json.Valid` reports and `json.Unmarshal` fails on
regardless of the target type. -/
def jparse (s : String) : Option JValue :=
  match pValue (s.data.length + 1) (skipWs s.data) with
  | some (v, rest) => if skipWs rest = [] then some v else none
  | none => none

/-! ## encoding/json: decoding into the model

Go's `Unmarshal` walks the parsed value: object members are processed in
source order (later duplicates decode into the same field); unknown keys
are ignored; the literal `null` is a no-op for string, bool, map, slice
and array targets but sets a pointer target to nil; and a custom
`UnmarshalJSON` method receives the raw bytes of the value, `null`
included.  A type mismatch is an error (`none`). -/

/-- Model of `UintValue.UnmarshalJSON`: if the raw bytes are a quoted string they
are unquoted first; then `strconv.ParseUint(s, 10, 0)` runs on the
result — for any non-string value that is the raw token itself, so only
a number token that happens to be plain decimal digits survives.  Note
that `null` is passed through (becoming the unparsable text `null`). -/
def uintValueUnmarshal (v : JValue) : Option Nat :=
  match v with
  | .str s => goParseUint s
  | .num tok => goParseUint tok
  | .null => goParseUint "null"
  | .bool b => goParseUint (renderBool b)
  | .arr _ => none
  | .obj _ => none

/-- Model of `StrValue.UnmarshalJSON`: raw bytes framed by quotes decode as the
string itself; otherwise the raw value is unmarshalled into an `int`
(succeeding only for in-range integer number tokens — and for `null`,
which leaves the temporary at zero) and printed back with
`strconv.Itoa`. -/
def strValueUnmarshal (v : JValue) : Option String :=
  match v with
  | .str s => some s
  | .num tok => (goParseInt tok).map intDecimal
  | .null => some (intDecimal 0)
  | .bool _ => none
  | .arr _ => none
  | .obj _ => none

/-- Decode into a `string` field: a string replaces the current value,
`null` keeps it, anything else is an error. -/
def decodeStr (cur : String) (v : JValue) : Option String :=
  match v with
  | .str s => some s
  | .null => some cur
  | _ => none

/-- Decode into a `bool` field. -/
def decodeBool (cur : Bool) (v : JValue) : Option Bool :=
  match v with
  | .bool b => some b
  | .null => some cur
  | _ => none

/-- Go map assignment `m[k] = v` on an association list: replace the
value in place if the key is present, append otherwise. -/
def setKey {α : Type} (m : List (String × α)) (k : String) (v : α) : List (String × α) :=
  if m.any (fun p => p.1 = k) then
    m.map fun p => if p.1 = k then (k, v) else p
  else m ++ [(k, v)]

/-- Decode a JSON object into a Go map: each member's value decodes from
a freshly zeroed element, members in source order, later duplicates
overwriting.  Decoding starts from the map the field currently holds
(`null` keeps it). -/
def decodeMapInto {α : Type} (elemZero : α) (elemDec : α → JValue → Option α)
    (cur : List (String × α)) (pairs : List (String × JValue)) :
    Option (List (String × α)) :=
  match pairs with
  | [] => some cur
  | (k, v) :: rest =>
    match elemDec elemZero v with
    | none => none
    | some a => decodeMapInto elemZero elemDec (setKey cur k a) rest

/-- Decode into a plain (non-`Option`) map field. -/
def decodeMapField {α : Type} (elemZero : α) (elemDec : α → JValue → Option α)
    (cur : List (String × α)) (v : JValue) : Option (List (String × α)) :=
  match v with
  | .null => some cur
  | .obj pairs => decodeMapInto elemZero elemDec cur pairs
  | _ => none

/-- Decode into a map field that distinguishes nil (`none`): `null` keeps
the current value, an object decodes into the current map (allocating an
empty one when nil). -/
def decodeOptMapField {α : Type} (elemZero : α) (elemDec : α → JValue → Option α)
    (cur : Option (List (String × α))) (v : JValue) :
    Option (Option (List (String × α))) :=
  match v with
  | .null => some cur
  | .obj pairs => (decodeMapInto elemZero elemDec (cur.getD []) pairs).map some
  | _ => none

/-- Decode into a `[2]string` array: elements decode in place, a longer
JSON array is truncated, a shorter one zeroes the tail (Go array
semantics). -/
def decodeStrPair (cur : String × String) (v : JValue) : Option (String × String) :=
  match v with
  | .null => some cur
  | .arr [] => some ("", "")
  | .arr [a] =>
    match decodeStr cur.1 a with
    | some x => some (x, "")
    | none => none
  | .arr (a :: b :: _) =>
    match decodeStr cur.1 a, decodeStr cur.2 b with
    | some x, some y => some (x, y)
    | _, _ => none
  | _ => none

/-- Decode into a slice field: `null` keeps the current slice, an array
decodes each element from zero. -/
def decodeSliceField {α : Type} (elemZero : α) (elemDec : α → JValue → Option α)
    (cur : List α) (v : JValue) : Option (List α) :=
  match v with
  | .null => some cur
  | .arr elems => elems.mapM (elemDec elemZero)
  | _ => none

/-- Fold the members of a JSON object over a record, one field-decoding
step per member. -/
def decodeFields {α : Type} (step : α → String → JValue → Option α)
    (init : α) (pairs : List (String × JValue)) : Option α :=
  match pairs with
  | [] => some init
  | (k, v) :: rest =>
    match step init k v with
    | none => none
    | some acc => decodeFields step acc rest

def portStep (p : Port) (k : String) (v : JValue) : Option Port :=
  if k = "description" then (decodeStr p.description v).map fun x => { p with description := x }
  else if k = "label" then (decodeStr p.label v).map fun x => { p with label := x }
  else if k = "host_default" then (uintValueUnmarshal v).map fun x => { p with hostDefault := x }
  else if k = "protocol" then (decodeStr p.protocol v).map fun x => { p with protocol := x }
  else if k = "ui" then (decodeBool p.ui v).map fun x => { p with ui := x }
  else some p

def decodePort (cur : Port) (v : JValue) : Option Port :=
  match v with
  | .null => some cur
  | .obj pairs => decodeFields portStep cur pairs
  | _ => none

def volumeStep (vol : Volume) (k : String) (v : JValue) : Option Volume :=
  if k = "description" then (decodeStr vol.description v).map fun x => { vol with description := x }
  else if k = "label" then (decodeStr vol.label v).map fun x => { vol with label := x }
  else if k = "min_size" then (uintValueUnmarshal v).map fun x => { vol with minSize := x }
  else some vol

def decodeVolume (cur : Volume) (v : JValue) : Option Volume :=
  match v with
  | .null => some cur
  | .obj pairs => decodeFields volumeStep cur pairs
  | _ => none

def envVarStep (e : EnvironmentVar) (k : String) (v : JValue) : Option EnvironmentVar :=
  if k = "description" then (decodeStr e.description v).map fun x => { e with description := x }
  else if k = "label" then (decodeStr e.label v).map fun x => { e with label := x }
  else if k = "index" then (uintValueUnmarshal v).map fun x => { e with index := x }
  else if k = "default" then (strValueUnmarshal v).map fun x => { e with defaultVal := x }
  else some e

def decodeEnvVar (cur : EnvironmentVar) (v : JValue) : Option EnvironmentVar :=
  match v with
  | .null => some cur
  | .obj pairs => decodeFields envVarStep cur pairs
  | _ => none

def deviceStep (d : Device) (k : String) (v : JValue) : Option Device :=
  if k = "description" then (decodeStr d.description v).map fun x => { d with description := x }
  else if k = "label" then (decodeStr d.label v).map fun x => { d with label := x }
  else if k = "index" then (uintValueUnmarshal v).map fun x => { d with index := x }
  else some d

def decodeDevice (cur : Device) (v : JValue) : Option Device :=
  match v with
  | .null => some cur
  | .obj pairs => decodeFields deviceStep cur pairs
  | _ => none

def customConfigStep (c : CustomConfig) (k : String) (v : JValue) : Option CustomConfig :=
  if k = "description" then (decodeStr c.description v).map fun x => { c with description := x }
  else if k = "label" then (decodeStr c.label v).map fun x => { c with label := x }
  else some c

def decodeCustomConfig (cur : CustomConfig) (v : JValue) : Option CustomConfig :=
  match v with
  | .null => some cur
  | .obj pairs => decodeFields customConfigStep cur pairs
  | _ => none

def containerLinkStep (l : ContainerLink) (k : String) (v : JValue) : Option ContainerLink :=
  if k = "name" then (decodeStr l.name v).map fun x => { l with name := x }
  else if k = "source_container" then (decodeStr l.sourceContainer v).map fun x => { l with sourceContainer := x }
  else some l

def decodeContainerLink (cur : ContainerLink) (v : JValue) : Option ContainerLink :=
  match v with
  | .null => some cur
  | .obj pairs => decodeFields containerLinkStep cur pairs
  | _ => none

def containerStep (c : Container) (k : String) (v : JValue) : Option Container :=
  if k = "image" then (decodeStr c.image v).map fun x => { c with image := x }
  else if k = "tag" then (decodeStr c.tag v).map fun x => { c with tag := x }
  else if k = "launch_order" then (uintValueUnmarshal v).map fun x => { c with launchOrder := x }
  else if k = "ports" then (decodeOptMapField zeroPort decodePort c.ports v).map fun x => { c with ports := x }
  else if k = "volumes" then (decodeMapField zeroVolume decodeVolume c.volumes v).map fun x => { c with volumes := x }
  else if k = "opts" then (decodeSliceField ("", "") decodeStrPair c.opts v).map fun x => { c with opts := x }
  else if k = "cmd_arguments" then (decodeSliceField ("", "") decodeStrPair c.cmdArguments v).map fun x => { c with cmdArguments := x }
  else if k = "environment" then (decodeMapField zeroEnvVar decodeEnvVar c.environment v).map fun x => { c with environment := x }
  else if k = "devices" then (decodeMapField zeroDevice decodeDevice c.devices v).map fun x => { c with devices := x }
  else some c

def decodeContainer (cur : Container) (v : JValue) : Option Container :=
  match v with
  | .null => some cur
  | .obj pairs => decodeFields containerStep cur pairs
  | _ => none

def uiSlugStep (u : UISlug) (k : String) (v : JValue) : Option UISlug :=
  if k = "https" then (decodeBool u.https v).map fun x => { u with https := x }
  else if k = "slug" then (decodeStr u.slug v).map fun x => { u with slug := x }
  else some u

/-- Decode into the `*UISlug` pointer field: `null` sets the pointer to
nil; an object allocates (or reuses) the pointee and decodes into it. -/
def decodeUIField (cur : Option UISlug) (v : JValue) : Option (Option UISlug) :=
  match v with
  | .null => some none
  | .obj pairs => (decodeFields uiSlugStep (cur.getD zeroUISlug) pairs).map some
  | _ => none

/-- Decode the value of one container-links map entry: a slice of
`ContainerLink`. -/
def decodeLinkList (cur : List ContainerLink) (v : JValue) : Option (List ContainerLink) :=
  decodeSliceField zeroContainerLink decodeContainerLink cur v

def detailsStep (d : RockonDetails) (k : String) (v : JValue) : Option RockonDetails :=
  if k = "description" then (decodeStr d.description v).map fun x => { d with description := x }
  else if k = "version" then (decodeStr d.version v).map fun x => { d with version := x }
  else if k = "website" then (decodeStr d.website v).map fun x => { d with website := x }
  else if k = "icon" then (decodeStr d.icon v).map fun x => { d with icon := x }
  else if k = "more_info" then (decodeStr d.moreInfo v).map fun x => { d with moreInfo := x }
  else if k = "ui" then (decodeUIField d.ui v).map fun x => { d with ui := x }
  else if k = "volume_add_support" then (decodeBool d.volumeAddSupport v).map fun x => { d with volumeAddSupport := x }
  else if k = "containers" then (decodeOptMapField zeroContainer decodeContainer d.containers v).map fun x => { d with containers := x }
  else if k = "container_links" then (decodeMapField [] decodeLinkList d.containerLinks v).map fun x => { d with containerLinks := x }
  else if k = "custom_config" then (decodeMapField zeroCustomConfig decodeCustomConfig d.customConfig v).map fun x => { d with customConfig := x }
  else some d

def decodeDetails (cur : RockonDetails) (v : JValue) : Option RockonDetails :=
  match v with
  | .null => some cur
  | .obj pairs => decodeFields detailsStep cur pairs
  | _ => none

/-- Model of `json.Unmarshal(fileData, &rockon)` with `var rockon model.RockOn`
(a nil map): a JSON object decodes each member into a fresh
`RockonDetails`; `null` leaves the map nil, conflated here with the
empty map (in `main` both panic in `checkRootMap` before any
distinction could be observed). -/
def decodeRockOn (v : JValue) : Option RockOn :=
  match v with
  | .null => some []
  | .obj pairs => decodeMapInto zeroDetails decodeDetails [] pairs
  | _ => none

/-- The full `Parse` of the specification: JSON syntax then unmarshalling
into the `RockOn` model. -/
def parseRockOn (s : String) : Option RockOn :=
  (jparse s).bind decodeRockOn

/-! ## The index reconciler (`checkRootMap`) and index serialization -/

/-- Model of `strings.ToLower`, for the ASCII range (the model's strings;
non-ASCII letters are left unchanged, where Go would also lower-case
non-ASCII unicode letters). -/
def goToLower (s : String) : String :=
  String.mk (s.data.map fun c =>
    if 65 ≤ c.toNat && c.toNat ≤ 90 then Char.ofNat (c.toNat + 32) else c)

/-- The first key whose value equals `val` — the `for key, value :=
range maps.All(rootMap)` loop with `break` on the first match, the list
order standing for the map's (unspecified) iteration order. -/
def findValue (m : List (String × String)) (val : String) : Option String :=
  match m with
  | [] => none
  | (k, v) :: rest => if v = val then some k else findValue rest val

/-- Go `delete(m, k)` on the association list (keys are unique in a Go
map, so removing every pair with the key is the same operation). -/
def eraseKey (m : List (String × String)) (k : String) : List (String × String) :=
  m.filter fun p => p.1 ≠ k

/-- Association list lookup (Go `m[k]`). -/
def lookupKey {α : Type} (m : List (String × α)) (k : String) : Option α :=
  match m with
  | [] => none
  | (k2, v) :: rest => if k2 = k then some v else lookupKey rest k

/-- What `checkRootMap` leaves behind: the updated index map, the
name-mismatch advisory — carrying the stale index key, the expected
(lower-cased) key and the file's base name — if one was logged, and
whether the no-match-in-index advisory was logged. -/
structure ReconcileOut where
  rootMap : List (String × String)
  mismatch : Option (String × String × String)
  noMatch : Bool
deriving DecidableEq, Repr

/-- Model of `checkRootMap(rootMap, filename, rockon)`: find the entry whose value
is `filename`; take the Rock-on's title as element 0 of the collected
key slice — a runtime panic (`none`) when the document map is empty —
lower-case it; on a found entry under a different key log the mismatch
advisory and delete the stale key; on no found entry log the no-match
advisory; in all cases assign `rootMap[lowerCaseName] = filename`. -/
def checkRootMap (rootMap : List (String × String)) (filename : String)
    (rockon : RockOn) : Option ReconcileOut :=
  match rockon with
  | [] => none
  | (title, _) :: _ =>
    let lowerCaseName := goToLower title
    match findValue rootMap filename with
    | some keyName =>
      if lowerCaseName ≠ keyName then
        some ⟨setKey (eraseKey rootMap keyName) lowerCaseName filename,
              some (keyName, lowerCaseName, filename), false⟩
      else
        some ⟨setKey rootMap lowerCaseName filename, none, false⟩
    | none =>
      some ⟨setKey rootMap lowerCaseName filename, none, true⟩

/-- Model of `json.MarshalIndent(rootMap, "", "  ")`: compact marshalling of the
map — keys sorted, values HTML-escaped (the default) — re-indented with
a two-space unit; `MarshalIndent` appends no trailing newline. -/
def marshalIndexMap (m : List (String × String)) : String :=
  jsonObject "  " 0
    ((sortPairs m).map fun kv => (quoteString true kv.1, quoteString true kv.2))

/-- Decode `root.json` into `map[string]string` (the `rootValidErr`
check): a JSON object whose member values are strings (`null` leaves a
fresh zero element, i.e. the empty string).  `null` at top level leaves
the (empty) map as it started. -/
def decodeStringMap (v : JValue) : Option (List (String × String)) :=
  match v with
  | .null => some []
  | .obj pairs =>
    decodeMapInto "" (fun cur w => decodeStr cur w) [] pairs
  | _ => none

/-! ## path/filepath helpers

`Clean`, `Dir`, `Join`, `Ext` and `Base` for slash-separated paths, as
`main` uses them. -/

/-- Resolve `.` and `..` elements as `filepath.Clean` does. -/
def cleanComponents (abs : Bool) (comps : List String) : List String :=
  (comps.foldl
    (fun acc c =>
      if c = "." then acc
      else if c = ".." then
        match acc with
        | [] => if abs then [] else [".."]
        | a :: rest => if a = ".." then c :: acc else rest
      else c :: acc)
    []).reverse

/-- Split on a separator character (the `strings.Split` underlying
`Clean`'s element walk). -/
def splitOnChar (sep : Char) : List Char → List (List Char)
  | [] => [[]]
  | c :: cs =>
    if c = sep then [] :: splitOnChar sep cs
    else
      match splitOnChar sep cs with
      | h :: t => (c :: h) :: t
      | [] => [[c]]

def cleanPath (p : String) : String :=
  if p = "" then "."
  else
    let abs := p.data.head? = some '/'
    let comps := cleanComponents abs
      (((splitOnChar '/' p.data).map String.mk).filter (fun c => c ≠ ""))
    if abs then "/" ++ String.intercalate "/" comps
    else if comps = [] then "." else String.intercalate "/" comps

/-- Index of the last occurrence of `c` in `cs`, if any. -/
def lastIndexOf (c : Char) (cs : List Char) : Option Nat :=
  match cs with
  | [] => none
  | x :: rest =>
    match lastIndexOf c rest with
    | some i => some (i + 1)
    | none => if x = c then some 0 else none

/-- Model of `filepath.Dir`: everything up to the final separator, cleaned; `.`
when there is none. -/
def dirPath (p : String) : String :=
  match lastIndexOf '/' p.data with
  | none => "."
  | some i => cleanPath (String.mk (p.data.take (i + 1)))

/-- Model of `filepath.Join` of two elements. -/
def joinPath (a b : String) : String :=
  if a = "" then cleanPath b
  else if b = "" then cleanPath a
  else cleanPath (a ++ "/" ++ b)

/-- Model of `filepath.Ext`: the suffix starting at the final dot in the final
element, empty if there is none. -/
def extPath (p : String) : String :=
  match lastIndexOf '.' p.data with
  | none => ""
  | some i =>
    match lastIndexOf '/' p.data with
    | none => String.mk (p.data.drop i)
    | some j => if j < i then String.mk (p.data.drop i) else ""

/-- Model of `filepath.Base`: the final element, after trailing separators are
removed; `.` for the empty path, `/` for the root. -/
def basePath (p : String) : String :=
  if p = "" then "."
  else
    let cs := (p.data.reverse.dropWhile (fun c => c = '/')).reverse
    if cs = [] then "/"
    else String.mk (cs.reverse.takeWhile (fun c => c ≠ '/')).reverse

/-! ## The orchestrator (`main`)

The file system and command line are an explicit environment: glob
expansion results, file contents (`none` = read error) and write
outcomes.  `os.Exit(n)` and a runtime panic are the terminal results;
falling off the end of `main` is exit status 0. -/

structure Env where
  argPatterns : List String
  glob : String → List String
  readFile : String → Option String
  writeOk : String → Bool

structure Flags where
  check : Bool
  diff : Bool
  write : Bool
  root : String

inductive RunResult where
  | exited (code : Nat)
  | panicked
deriving DecidableEq, Repr

/-- The mutable state carried across the file loop: the aggregate
divergence flag, whether the index has been loaded, the working index
map, and the resolved index path. -/
structure LoopSt where
  diffToValid : Bool
  indexLoaded : Bool
  rootMap : List (String × String)
  rootFile : String
deriving Repr

/-- Model of `parseFileArgs`: expand each pattern, exiting with status 2 as soon
as one matches nothing. -/
def collectFiles (glob : String → List String) : List String → Option (List String)
  | [] => some []
  | p :: ps =>
    match glob p with
    | [] => none
    | fs => (collectFiles glob ps).map (fs ++ ·)

/-- The body of the `for _, fileName := range parseFileArgs()` loop for
one file: read (exit 1), base-syntax check (exit 3), first-time index
load (exit 4 on read failure, exit 5 on invalid syntax, exit 1 on a
non-`map[string]string` shape), skip of the index file itself,
unmarshalling into the model (exit 1 for a `.json` file, advisory skip
otherwise), reconciliation (panic on an empty document map),
canonicalization, divergence detection, and the in-place overwrite
(exit 6 on failure). -/
def processFile (env : Env) (flags : Flags) (st : LoopSt) (fileName : String) :
    Except RunResult LoopSt :=
  match env.readFile fileName with
  | none => .error (.exited 1)
  | some origFileContent =>
    match jparse origFileContent with
    | none => .error (.exited 3)
    | some fileVal =>
      let loadIndex : Except RunResult LoopSt :=
        if st.indexLoaded then .ok st
        else
          let rootFile :=
            if flags.root = "" then joinPath (dirPath fileName) "root.json"
            else flags.root
          match env.readFile rootFile with
          | none => .error (.exited 4)
          | some rootData =>
            match jparse rootData with
            | none => .error (.exited 5)
            | some rootVal =>
              match decodeStringMap rootVal with
              | none => .error (.exited 1)
              | some rm =>
                .ok { st with indexLoaded := true, rootMap := rm, rootFile := rootFile }
      match loadIndex with
      | .error r => .error r
      | .ok st1 =>
        if cleanPath fileName = cleanPath st1.rootFile then .ok st1
        else
          match decodeRockOn fileVal with
          | none =>
            if extPath fileName = ".json" then .error (.exited 1)
            else .ok st1
          | some rockon =>
            match checkRootMap st1.rootMap (basePath fileName) rockon with
            | none => .error .panicked
            | some res =>
              let st2 := { st1 with rootMap := res.rootMap }
              let rockonValidatedJSON := RockOn.toJSON rockon
              let st3 :=
                if origFileContent ≠ rockonValidatedJSON then
                  { st2 with diffToValid := true }
                else st2
              if flags.write && !env.writeOk fileName then .error (.exited 6)
              else .ok st3

def runFiles (env : Env) (flags : Flags) (st : LoopSt) :
    List String → Except RunResult LoopSt
  | [] => .ok st
  | f :: fs =>
    match processFile env flags st f with
    | .error r => .error r
    | .ok st2 => runFiles env flags st2 fs

/-- After the loop: serialize the index, overwrite it under `--write`
(exit 7 on failure), and derive the final status — divergence found
means status 0 under `--diff` and status 1 otherwise; no divergence
means status 0. -/
def finishRun (env : Env) (flags : Flags) (st : LoopSt) : RunResult :=
  if flags.write && !env.writeOk st.rootFile then .exited 7
  else if st.diffToValid then
    if flags.diff then .exited 0 else .exited 1
  else .exited 0

def mainRun (env : Env) (flags : Flags) : RunResult :=
  match collectFiles env.glob env.argPatterns with
  | none => .exited 2
  | some files =>
    match runFiles env flags ⟨false, false, [], flags.root⟩ files with
    | .error r => r
    | .ok st => finishRun env flags st

/-! ## Derived operations and concrete examples used by the verification -/

/-- Canonicalize ∘ Parse on raw input: `none` when `Parse` rejects. -/
def canonOfInput (s : String) : Option String :=
  (parseRockOn s).map RockOn.toJSON

/-- A minimal document, already in canonical form. -/
def docOk : String :=
  "\x7b\n    \"Foo\": \x7b\n        \"description\": \"d\",\n        \"version\": \"1\",\n        \"website\": \"w\",\n        \"containers\": \x7b\x7d\n    \x7d\n\x7d\n"

/-- The same document, minified — semantically equal, byte-divergent. -/
def docMin : String :=
  "\x7b\"Foo\":\x7b\"description\":\"d\",\"version\":\"1\",\"website\":\"w\",\"containers\":\x7b\x7d\x7d\x7d"

/-- A document whose description contains the literal six characters
backslash-u0026 (in JSON source, an escaped backslash followed by
`u0026`). -/
def docAmpEscape : String :=
  "\x7b\"Foo\": \x7b\"description\": \"\\\\u0026\", \"version\": \"\", \"website\": \"\", \"containers\": \x7b\x7d\x7d\x7d"

/-- A document with `launch_order` as a native number. -/
def docLaunchNum : String :=
  "\x7b\"Foo\":\x7b\"description\":\"d\",\"version\":\"1\",\"website\":\"w\",\"containers\":\x7b\"c\":\x7b\"image\":\"i\",\"launch_order\":1,\"ports\":\x7b\x7d\x7d\x7d\x7d\x7d"

/-- The same document with `launch_order` as a quoted numeric string. -/
def docLaunchStr : String :=
  "\x7b\"Foo\":\x7b\"description\":\"d\",\"version\":\"1\",\"website\":\"w\",\"containers\":\x7b\"c\":\x7b\"image\":\"i\",\"launch_order\":\"1\",\"ports\":\x7b\x7d\x7d\x7d\x7d\x7d"

/-- A document whose environment-variable default is the number `42`. -/
def docDefaultNum : String :=
  "\x7b\"Foo\":\x7b\"description\":\"d\",\"version\":\"1\",\"website\":\"w\",\"containers\":\x7b\"c\":\x7b\"image\":\"i\",\"launch_order\":1,\"ports\":null,\"environment\":\x7b\"E\":\x7b\"description\":\"x\",\"label\":\"y\",\"default\":42\x7d\x7d\x7d\x7d\x7d\x7d"

/-- The same document with the default as the string `"42"`. -/
def docDefaultStr : String :=
  "\x7b\"Foo\":\x7b\"description\":\"d\",\"version\":\"1\",\"website\":\"w\",\"containers\":\x7b\"c\":\x7b\"image\":\"i\",\"launch_order\":1,\"ports\":null,\"environment\":\x7b\"E\":\x7b\"description\":\"x\",\"label\":\"y\",\"default\":\"42\"\x7d\x7d\x7d\x7d\x7d\x7d"

/-- The same document with the default as the fractional number `1.5`. -/
def docDefaultFrac : String :=
  "\x7b\"Foo\":\x7b\"description\":\"d\",\"version\":\"1\",\"website\":\"w\",\"containers\":\x7b\"c\":\x7b\"image\":\"i\",\"launch_order\":1,\"ports\":null,\"environment\":\x7b\"E\":\x7b\"description\":\"x\",\"label\":\"y\",\"default\":1.5\x7d\x7d\x7d\x7d\x7d\x7d"

/-- The minimal document with an explicit all-default UI-slug descriptor. -/
def docEmptyUI : String :=
  "\x7b\"Foo\":\x7b\"description\":\"d\",\"version\":\"1\",\"website\":\"w\",\"ui\":\x7b\"https\":false,\"slug\":\"\"\x7d,\"containers\":\x7b\x7d\x7d\x7d"

/-- A base environment: one pattern expanding to `a.json`, holding the
canonical document, with a trivial one-entry index. -/
def envBase : Env :=
  { argPatterns := ["*.json"],
    glob := fun p => if p = "*.json" then ["a.json"] else [],
    readFile := fun f =>
      if f = "a.json" then some docOk
      else if f = "root.json" then some "\x7b\"foo\": \"a.json\"\x7d"
      else none,
    writeOk := fun _ => true }

/-- Plain check-mode flags with an explicit index path. -/
def flagsCheck : Flags := { check := true, diff := false, write := false, root := "root.json" }

/-- The base environment with the document minified (divergent). -/
def envDivergent : Env :=
  { envBase with
    readFile := fun f =>
      if f = "a.json" then some docMin
      else if f = "root.json" then some "\x7b\"foo\": \"a.json\"\x7d"
      else none }

/-- A non-`.json` input whose content is not valid JSON. -/
def envTxtInvalid : Env :=
  { argPatterns := ["notes.txt"],
    glob := fun p => if p = "notes.txt" then ["notes.txt"] else [],
    readFile := fun f =>
      if f = "notes.txt" then some "oops"
      else if f = "root.json" then some "\x7b\x7d"
      else none,
    writeOk := fun _ => true }

/-- A non-`.json` input whose content is valid JSON but not a Rock-on
document. -/
def envTxtNonRockon : Env :=
  { envTxtInvalid with
    readFile := fun f =>
      if f = "notes.txt" then some "[1, 2]"
      else if f = "root.json" then some "\x7b\x7d"
      else none }

/-- A `.json` input holding the empty object — an empty document map. -/
def envEmptyDoc : Env :=
  { argPatterns := ["a.json"],
    glob := fun p => if p = "a.json" then ["a.json"] else [],
    readFile := fun f =>
      if f = "a.json" then some "\x7b\x7d"
      else if f = "root.json" then some "\x7b\x7d"
      else none,
    writeOk := fun _ => true }

/-! ## Verification -/

theorem renderDetails_ui_zero (depth : Nat) (d : RockonDetails) :
    renderDetails depth { d with ui := some zeroUISlug } =
    renderDetails depth { d with ui := none } := by
  simp [renderDetails, normalizeUI]

/-- C5: a UI-slug descriptor present in the input but entirely
default/empty is suppressed on output: for every document body and name,
canonical serialization with `ui` equal to the zero `UISlug` is
byte-identical to the one with `ui` absent; concretely, the document
with an explicit `"ui": ... false ... ""` member canonicalizes exactly
like the one without a `ui` member. -/
theorem c5_empty_ui_suppressed :
    (∀ (name : String) (d : RockonDetails),
      RockOn.toJSON [(name, { d with ui := some zeroUISlug })] =
      RockOn.toJSON [(name, { d with ui := none })]) ∧
    canonOfInput docEmptyUI = canonOfInput docMin := by
  constructor
  · intro name d
    simp [RockOn.toJSON, sortPairs, insertPair, renderDetails_ui_zero]
  · rfl

/-- C10: `Parse` accepts a zero-key top-level object as an empty document
map, `checkRootMap` then panics (indexing element 0 of the empty key
slice), and it is panic-free exactly on non-empty document maps; run
end-to-end, a `\x7b\x7d` document makes `main` panic. -/
theorem c10_empty_document_panics :
    parseRockOn "\x7b\x7d" = some [] ∧
    (∀ (m : List (String × String)) (f : String), checkRootMap m f [] = none) ∧
    (∀ (m : List (String × String)) (f : String) (r : RockOn),
      r ≠ [] → (checkRootMap m f r).isSome = true) ∧
    mainRun envEmptyDoc flagsCheck = .panicked := by
  refine ⟨rfl, fun m f => rfl, ?_, by decide⟩
  intro m f r hr
  match r with
  | [] => exact absurd rfl hr
  | (title, d) :: rest =>
    rcases h : findValue m f with _ | k
    · simp [checkRootMap, h]
    · by_cases hk : goToLower title ≠ k <;> simp [checkRootMap, h, hk]

/-- C10 witness: the panic-freedom conjunct at a concrete non-empty
document map. -/
theorem c10_empty_document_panics_witness :
    (checkRootMap [] "a.json" [("Foo", zeroDetails)]).isSome = true :=
  c10_empty_document_panics.2.2.1 [] "a.json" [("Foo", zeroDetails)] (by decide)

theorem digitChar_toNat (d : Nat) (h : d < 10) : (digitChar d).toNat = 48 + d := by
  interval_cases d <;> rfl

theorem isDigitChar_digitChar (d : Nat) (h : d < 10) : isDigitChar (digitChar d) = true := by
  interval_cases d <;> rfl

theorem decimalValue_append (a : List Char) (c : Char) :
    decimalValue (a ++ [c]) = 10 * decimalValue a + (c.toNat - 48) := by
  simp [decimalValue, List.foldl_append]

theorem natDecimalAux_spec :
    ∀ (fuel n : Nat), n < fuel →
      (natDecimalAux fuel n).all isDigitChar = true ∧
      natDecimalAux fuel n ≠ [] ∧
      decimalValue (natDecimalAux fuel n) = n := by
  intro fuel
  induction fuel with
  | zero => omega
  | succ fuel ih =>
    intro n hn
    by_cases h10 : n < 10
    · refine ⟨?_, ?_, ?_⟩ <;>
        simp [natDecimalAux, h10, isDigitChar_digitChar n h10, decimalValue,
          digitChar_toNat n h10]
    · have hdiv : n / 10 < fuel := by
        have := Nat.div_lt_self (by omega : 0 < n) (by omega : 1 < 10)
        omega
      obtain ⟨h1, h2, h3⟩ := ih (n / 10) hdiv
      refine ⟨?_, ?_, ?_⟩
      · simp only [natDecimalAux, if_neg h10, List.all_append, h1, Bool.true_and,
          List.all_cons, List.all_nil, Bool.and_true]
        exact isDigitChar_digitChar (n % 10) (Nat.mod_lt n (by omega))
      · simp [natDecimalAux, h10]
      · rw [natDecimalAux, if_neg h10, decimalValue_append, h3,
          digitChar_toNat (n % 10) (Nat.mod_lt n (by omega))]
        omega

theorem goParseUint_natDecimal (n : Nat) (h : n < 2 ^ 64) :
    goParseUint (natDecimal n) = some n := by
  obtain ⟨h1, h2, h3⟩ := natDecimalAux_spec (n + 1) n (by omega)
  simp [goParseUint, natDecimal, h1, h2, h3, h]
  omega

theorem isDigitChar_ne_sign (c : Char) (h : isDigitChar c = true) :
    c ≠ '-' ∧ c ≠ '+' := by
  constructor <;> rintro rfl <;> simp [isDigitChar] at h

theorem goParseInt_intDecimal (i : Int) (h1 : -(2 ^ 63) ≤ i) (h2 : i < 2 ^ 63) :
    goParseInt (intDecimal i) = some i := by
  by_cases hneg : i < 0
  · have hrange : i.natAbs ≤ 2 ^ 63 := by omega
    obtain ⟨d1, d2, d3⟩ := natDecimalAux_spec (i.natAbs + 1) i.natAbs (by omega)
    simp only [goParseInt, intDecimal, if_pos hneg, if_true, d1, d3]
    have hd2 : decide (natDecimalAux (i.natAbs + 1) i.natAbs ≠ []) = true := by
      simp [d2]
    have hr : decide (i.natAbs ≤ 2 ^ 63) = true := by
      simp only [decide_eq_true_eq]
      omega
    rw [hd2, hr]
    simp only [Bool.true_and, Bool.and_true, if_pos rfl, if_true, Option.some.injEq]
    omega
  · have htn : (0 : Int) ≤ i := by omega
    have hlt : i.toNat < 2 ^ 63 := by omega
    obtain ⟨d1, d2, d3⟩ := natDecimalAux_spec (i.toNat + 1) i.toNat (by omega)
    simp only [intDecimal, if_neg hneg, natDecimal]
    rcases hsh : natDecimalAux (i.toNat + 1) i.toNat with _ | ⟨c, rest⟩
    · exact absurd hsh d2
    · have hcd : isDigitChar c = true := by
        have := d1
        rw [hsh] at this
        simp [List.all_cons] at this
        exact this.1
      obtain ⟨hm, hp⟩ := isDigitChar_ne_sign c hcd
      rw [hsh] at d1 d3
      simp only [goParseInt, if_neg hm, if_neg hp, d1, d3]
      simp [hlt]
      omega

theorem all_isDigitChar_false {l : List Char} {c : Char}
    (hc : c ∈ l) (hd : isDigitChar c = false) : l.all isDigitChar = false := by
  rcases h : l.all isDigitChar with _ | _
  · rfl
  · rw [List.all_eq_true] at h
    have := h c hc
    rw [hd] at this
    cases this

/-- C4: every numeric schema field decodes through
`UintValue.UnmarshalJSON`, which treats a native number token and the
same token as a quoted string identically; any unsigned 64-bit decimal
is accepted in both forms with the same value; a token containing any
non-digit character (a minus sign, a decimal point, a letter …) is
rejected in both forms; and concretely, documents differing only in
`"launch_order": 1` versus `"launch_order": "1"` canonicalize to
byte-identical output. -/
theorem c4_numeric_field_coercion :
    (∀ tok : String, uintValueUnmarshal (.num tok) = uintValueUnmarshal (.str tok)) ∧
    (∀ n : Nat, n < 2 ^ 64 →
      uintValueUnmarshal (.num (natDecimal n)) = some n ∧
      uintValueUnmarshal (.str (natDecimal n)) = some n) ∧
    (∀ tok : String, (∃ c ∈ tok.data, isDigitChar c = false) →
      uintValueUnmarshal (.num tok) = none ∧
      uintValueUnmarshal (.str tok) = none) ∧
    canonOfInput docLaunchNum = canonOfInput docLaunchStr ∧
    (canonOfInput docLaunchNum).isSome = true := by
  refine ⟨fun tok => rfl, ?_, ?_, by decide, by decide⟩
  · intro n hn
    exact ⟨goParseUint_natDecimal n hn, goParseUint_natDecimal n hn⟩
  · intro tok ⟨c, hc, hd⟩
    have hall := all_isDigitChar_false hc hd
    constructor <;> simp [uintValueUnmarshal, goParseUint, hall]

/-- C4 witness: the three quantified conjuncts at concrete tokens. -/
theorem c4_numeric_field_coercion_witness :
    uintValueUnmarshal (.num "7") = uintValueUnmarshal (.str "7") ∧
    uintValueUnmarshal (.num (natDecimal 7)) = some 7 ∧
    uintValueUnmarshal (.num "-1") = none ∧
    uintValueUnmarshal (.num "1.5") = none :=
  ⟨c4_numeric_field_coercion.1 "7",
   (c4_numeric_field_coercion.2.1 7 (by decide)).1,
   (c4_numeric_field_coercion.2.2.1 "-1" ⟨'-', by decide, by decide⟩).1,
   (c4_numeric_field_coercion.2.2.1 "1.5" ⟨'.', by decide, by decide⟩).1⟩

/-- C9 counterexample: the claim reads every JSON number in an
environment-variable default position as accepted and string-converted,
but `StrValue.UnmarshalJSON` rejects the fractional number `1.5`
(`json.Unmarshal` into `int` fails), so `Parse` fails on a document whose
default is `1.5`. -/
theorem c9_fractional_default_rejected :
    strValueUnmarshal (JValue.num "1.5") = none ∧
    parseRockOn docDefaultFrac = none := by
  exact ⟨rfl, by decide⟩

/-- C9 (amended): the environment-variable default accepts any JSON
string as-is, and accepts a JSON number exactly when it is an integer
token in the signed 64-bit range, converting it to its decimal string
form; a token containing a decimal point or an exponent is rejected;
and concretely a default given as `42` canonicalizes identically to one
given as `"42"`. -/
theorem c9_default_string_coercion :
    (∀ s : String, strValueUnmarshal (.str s) = some s) ∧
    (∀ i : Int, -(2 ^ 63) ≤ i → i < 2 ^ 63 →
      strValueUnmarshal (.num (intDecimal i)) = some (intDecimal i)) ∧
    (∀ tok : String, ('.' ∈ tok.data ∨ 'e' ∈ tok.data ∨ 'E' ∈ tok.data) →
      strValueUnmarshal (.num tok) = none) ∧
    canonOfInput docDefaultNum = canonOfInput docDefaultStr ∧
    (canonOfInput docDefaultNum).isSome = true := by
  refine ⟨fun s => rfl, ?_, ?_, by decide, by decide⟩
  · intro i h1 h2
    simp [strValueUnmarshal, goParseInt_intDecimal i h1 h2]
  · intro tok hmem
    obtain ⟨c, hc, hd, hs1, hs2⟩ :
        ∃ c, c ∈ tok.data ∧ isDigitChar c = false ∧ c ≠ '-' ∧ c ≠ '+' := by
      rcases hmem with h | h | h
      · exact ⟨'.', h, by decide, by decide, by decide⟩
      · exact ⟨'e', h, by decide, by decide, by decide⟩
      · exact ⟨'E', h, by decide, by decide, by decide⟩
    have hpi : goParseInt tok = none := by
      rcases hsh : tok.data with _ | ⟨c0, rest⟩
      · simp [goParseInt, hsh]
      · rw [hsh] at hc
        simp only [goParseInt, hsh]
        by_cases h0m : c0 = '-'
        · have hcr : c ∈ rest := by
            rcases List.mem_cons.mp hc with h | h
            · exact absurd (h.trans h0m) hs1
            · exact h
          simp [all_isDigitChar_false hcr hd]
        · by_cases h0p : c0 = '+'
          · have hcr : c ∈ rest := by
              rcases List.mem_cons.mp hc with h | h
              · exact absurd (h.trans h0p) hs2
              · exact h
            simp [h0m, all_isDigitChar_false hcr hd]
          · simp [h0m, h0p, all_isDigitChar_false hc hd]
    simp [strValueUnmarshal, hpi]

/-- C9 witness: the amended conjuncts at concrete values. -/
theorem c9_default_string_coercion_witness :
    strValueUnmarshal (.str "abc") = some "abc" ∧
    strValueUnmarshal (.num (intDecimal 42)) = some (intDecimal 42) ∧
    strValueUnmarshal (.num "1.5") = none :=
  ⟨c9_default_string_coercion.1 "abc",
   c9_default_string_coercion.2.1 42 (by decide) (by decide),
   c9_default_string_coercion.2.2.1 "1.5" (Or.inl (by decide))⟩

theorem mem_setKey {α : Type} {m : List (String × α)} {k : String} {v : α}
    {p : String × α} (hp : p ∈ setKey m k v) :
    p = (k, v) ∨ (p ∈ m ∧ p.1 ≠ k) := by
  unfold setKey at hp
  rcases hany : m.any (fun q => q.1 = k) with _ | _
  · rw [hany] at hp
    simp only [Bool.false_eq_true, if_false, List.mem_append, List.mem_singleton] at hp
    rcases hp with h | h
    · right
      refine ⟨h, fun hk => ?_⟩
      rw [List.any_eq_false] at hany
      exact hany p h (by simp [hk])
    · exact Or.inl h
  · rw [hany] at hp
    simp only [if_true, List.mem_map] at hp
    obtain ⟨q, hq, hfq⟩ := hp
    by_cases hk : q.1 = k
    · rw [if_pos hk] at hfq
      exact Or.inl hfq.symm
    · rw [if_neg hk] at hfq
      exact Or.inr ⟨hfq ▸ hq, hfq ▸ hk⟩

theorem kv_mem_setKey {α : Type} (m : List (String × α)) (k : String) (v : α) :
    (k, v) ∈ setKey m k v := by
  unfold setKey
  rcases hany : m.any (fun q => q.1 = k) with _ | _
  · simp
  · rw [List.any_eq_true] at hany
    obtain ⟨q, hq, hk⟩ := hany
    simp only [decide_eq_true_eq] at hk
    simp only [if_true, List.mem_map]
    exact ⟨q, hq, by rw [if_pos hk]⟩

theorem setKey_self_of {α : Type} {l : List (String × α)} {k : String} {v : α}
    (hmem : (k, v) ∈ l) (huniq : ∀ p ∈ l, p.1 = k → p = (k, v)) :
    setKey l k v = l := by
  have hany : (l.any fun q => q.1 = k) = true := by
    rw [List.any_eq_true]
    exact ⟨(k, v), hmem, by simp⟩
  unfold setKey
  rw [hany, if_pos rfl]
  have hid : ∀ p ∈ l, (if p.1 = k then (k, v) else p) = p := by
    intro p hp
    by_cases hk : p.1 = k
    · rw [if_pos hk, huniq p hp hk]
    · rw [if_neg hk]
  calc l.map (fun p => if p.1 = k then (k, v) else p)
      = l.map id := List.map_congr_left hid
    _ = l := List.map_id _

theorem setKey_idem {α : Type} (m : List (String × α)) (k : String) (v : α) :
    setKey (setKey m k v) k v = setKey m k v := by
  refine setKey_self_of (kv_mem_setKey m k v) ?_
  intro p hp hk
  rcases mem_setKey hp with h | h
  · exact h
  · exact absurd hk h.2

theorem lookupKey_of_unique {α : Type} {l : List (String × α)} {k : String} {v : α}
    (hmem : (k, v) ∈ l) (huniq : ∀ p ∈ l, p.1 = k → p.2 = v) :
    lookupKey l k = some v := by
  induction l with
  | nil => cases hmem
  | cons hd tl ih =>
    obtain ⟨k0, v0⟩ := hd
    by_cases hk : k0 = k
    · have : v0 = v := huniq (k0, v0) (List.mem_cons_self _ _) hk
      simp [lookupKey, hk, this]
    · rw [lookupKey, if_neg hk]
      rcases List.mem_cons.mp hmem with h | h
      · cases h
        exact absurd rfl hk
      · exact ih h fun p hp => huniq p (List.mem_cons_of_mem _ hp)

theorem lookupKey_eq_none {α : Type} {l : List (String × α)} {k : String}
    (h : ∀ p ∈ l, p.1 ≠ k) : lookupKey l k = none := by
  induction l with
  | nil => rfl
  | cons hd tl ih =>
    rw [lookupKey, if_neg (h hd (List.mem_cons_self _ _))]
    exact ih fun p hp => h p (List.mem_cons_of_mem _ hp)

theorem lookupKey_setKey_self {α : Type} (m : List (String × α)) (k : String) (v : α) :
    lookupKey (setKey m k v) k = some v := by
  refine lookupKey_of_unique (kv_mem_setKey m k v) ?_
  intro p hp hk
  rcases mem_setKey hp with h | h
  · rw [h]
  · exact absurd hk h.2

theorem findValue_eq_none {m : List (String × String)} {f : String}
    (h : findValue m f = none) : ∀ p ∈ m, p.2 ≠ f := by
  induction m with
  | nil => intro p hp; cases hp
  | cons hd tl ih =>
    intro p hp
    rw [findValue] at h
    by_cases hv : hd.2 = f
    · rw [if_pos hv] at h; cases h
    · rw [if_neg hv] at h
      rcases List.mem_cons.mp hp with hped | hptl
      · rw [hped]; exact hv
      · exact ih h p hptl

theorem findValue_mem {m : List (String × String)} {f k : String}
    (h : findValue m f = some k) : (k, f) ∈ m := by
  induction m with
  | nil => cases h
  | cons hd tl ih =>
    rw [findValue] at h
    by_cases hv : hd.2 = f
    · rw [if_pos hv] at h
      cases h
      rw [← hv]
      exact List.mem_cons_self _ _
    · rw [if_neg hv] at h
      exact List.mem_cons_of_mem _ (ih h)

theorem findValue_of_unique {m : List (String × String)} {f k : String}
    (hex : ∃ p ∈ m, p.2 = f) (hall : ∀ p ∈ m, p.2 = f → p.1 = k) :
    findValue m f = some k := by
  induction m with
  | nil => obtain ⟨p, hp, _⟩ := hex; cases hp
  | cons hd tl ih =>
    rw [findValue]
    by_cases hv : hd.2 = f
    · rw [if_pos hv]
      exact congrArg some (hall hd (List.mem_cons_self _ _) hv)
    · rw [if_neg hv]
      refine ih ?_ fun p hp => hall p (List.mem_cons_of_mem _ hp)
      obtain ⟨p, hp, hpf⟩ := hex
      rcases List.mem_cons.mp hp with h | h
      · exact absurd (h ▸ hpf) hv
      · exact ⟨p, h, hpf⟩

theorem filter_le_one_mem_eq {α : Type} {l : List α} {pred : α → Bool}
    (hlen : (l.filter pred).length ≤ 1) {a b : α}
    (ha : a ∈ l) (hpa : pred a = true) (hb : b ∈ l) (hpb : pred b = true) :
    a = b := by
  have ha' : a ∈ l.filter pred := List.mem_filter.mpr ⟨ha, hpa⟩
  have hb' : b ∈ l.filter pred := List.mem_filter.mpr ⟨hb, hpb⟩
  rcases hf : l.filter pred with _ | ⟨x, _ | ⟨y, t⟩⟩
  · rw [hf] at ha'; cases ha'
  · rw [hf] at ha' hb'
    rw [List.mem_singleton] at ha' hb'
    rw [ha', hb']
  · rw [hf] at hlen
    simp at hlen

/-- C2: for every index map, filename and document display name, when
`checkRootMap` finds an entry holding the filename under a key `K`
different from the lower-cased display name it logs the name-mismatch
advisory `(K, expected key, filename)` and removes the stale key; when
the found key already equals the lower-cased display name it logs no
advisory; and in all cases the entry lower-cased-name ↦ filename is in
the map afterwards. -/
theorem c2_reconcile_mismatch :
    ∀ (m : List (String × String)) (f title : String) (d : RockonDetails)
      (rest : List (String × RockonDetails)) (out : ReconcileOut),
      checkRootMap m f ((title, d) :: rest) = some out →
      ((∀ K, findValue m f = some K → K ≠ goToLower title →
          out.mismatch = some (K, goToLower title, f) ∧
          lookupKey out.rootMap K = none) ∧
       (findValue m f = some (goToLower title) → out.mismatch = none) ∧
       lookupKey out.rootMap (goToLower title) = some f) := by
  intro m f title d rest out hc
  simp only [checkRootMap] at hc
  rcases h : findValue m f with _ | K0 <;> rw [h] at hc <;> dsimp only at hc
  · cases hc
    exact ⟨fun K hK => Option.noConfusion hK, fun hK => Option.noConfusion hK,
      lookupKey_setKey_self m (goToLower title) f⟩
  · by_cases hne : goToLower title ≠ K0
    · rw [if_pos hne] at hc
      cases hc
      refine ⟨?_, ?_, ?_⟩
      · intro K hK _
        cases hK
        refine ⟨rfl, lookupKey_eq_none ?_⟩
        intro p hp
        rcases mem_setKey hp with hpe | ⟨hpm, _⟩
        · rw [hpe]
          exact hne
        · have hker := (List.mem_filter.mp hpm).2
          simp only [decide_eq_true_eq] at hker
          exact hker
      · intro hK
        cases hK
        exact absurd rfl hne
      · exact lookupKey_setKey_self _ (goToLower title) f
    · rw [if_neg hne] at hc
      cases hc
      push_neg at hne
      refine ⟨?_, fun _ => rfl, lookupKey_setKey_self m (goToLower title) f⟩
      intro K hK hKne
      cases hK
      exact absurd hne.symm hKne

/-- C2 witness: the concrete scenario from the claim — index
`("Bar" ↦ "a.json")` reconciled against display name `Foo` in file
`a.json` yields the advisory and the index `("foo" ↦ "a.json")` with
`"Bar"` removed. -/
theorem c2_reconcile_mismatch_witness :
    ∃ out : ReconcileOut,
      checkRootMap [("Bar", "a.json")] "a.json" [("Foo", zeroDetails)] = some out ∧
      out.mismatch = some ("Bar", "foo", "a.json") ∧
      lookupKey out.rootMap "Bar" = none ∧
      lookupKey out.rootMap "foo" = some "a.json" := by
  refine ⟨⟨[("foo", "a.json")], some ("Bar", "foo", "a.json"), false⟩, by decide, ?_, ?_, ?_⟩
  · exact (c2_reconcile_mismatch [("Bar", "a.json")] "a.json" "Foo" zeroDetails [] _
      (by decide)).1 "Bar" (by decide) (by decide) |>.1
  · exact (c2_reconcile_mismatch [("Bar", "a.json")] "a.json" "Foo" zeroDetails [] _
      (by decide)).1 "Bar" (by decide) (by decide) |>.2
  · exact (c2_reconcile_mismatch [("Bar", "a.json")] "a.json" "Foo" zeroDetails [] _
      (by decide)).2.2

/-- C7 counterexample: reconcile is not idempotent for every triple.
With two stale entries holding the same filename, the first run removes
only the entry the map iteration finds first; the second run then finds
the remaining stale entry, emits another advisory and changes the map
again. -/
theorem c7_reconcile_not_idempotent :
    checkRootMap [("Bar", "a.json"), ("Baz", "a.json")] "a.json" [("Foo", zeroDetails)] =
      some ⟨[("Baz", "a.json"), ("foo", "a.json")], some ("Bar", "foo", "a.json"), false⟩ ∧
    checkRootMap [("Baz", "a.json"), ("foo", "a.json")] "a.json" [("Foo", zeroDetails)] =
      some ⟨[("foo", "a.json")], some ("Baz", "foo", "a.json"), false⟩ ∧
    ([("foo", "a.json")] : List (String × String)) ≠ [("Baz", "a.json"), ("foo", "a.json")] := by
  refine ⟨by decide, by decide, by decide⟩

/-- C7 (amended): reconcile is idempotent whenever at most one index
entry holds the document's filename as its value (the invariant an index
maintained by this tool satisfies): the second run leaves the map
unchanged and emits no advisory of either kind. -/
theorem c7_reconcile_idempotent :
    ∀ (m : List (String × String)) (f title : String) (d : RockonDetails)
      (rest : List (String × RockonDetails)) (out1 out2 : ReconcileOut),
      (m.filter fun p => p.2 = f).length ≤ 1 →
      checkRootMap m f ((title, d) :: rest) = some out1 →
      checkRootMap out1.rootMap f ((title, d) :: rest) = some out2 →
      out2.rootMap = out1.rootMap ∧ out2.mismatch = none ∧ out2.noMatch = false := by
  intro m f title d rest out1 out2 hlen hc1 hc2
  simp only [checkRootMap] at hc1
  -- In every branch of the first run, the resulting map is `setKey m' lower f`
  -- for a base map `m'` in which every entry holding value `f` has key `lower`.
  have hshape : ∃ m' : List (String × String),
      out1.rootMap = setKey m' (goToLower title) f ∧
      ∀ p ∈ m', p.2 = f → p.1 = goToLower title := by
    rcases h : findValue m f with _ | K0 <;> rw [h] at hc1 <;> dsimp only at hc1
    · cases hc1
      exact ⟨m, rfl, fun p hp hpf => absurd hpf (findValue_eq_none h p hp)⟩
    · have hK0mem : (K0, f) ∈ m := findValue_mem h
      by_cases hne : goToLower title ≠ K0
      · rw [if_pos hne] at hc1
        cases hc1
        refine ⟨eraseKey m K0, rfl, ?_⟩
        intro p hp hpf
        have hpm := List.mem_filter.mp hp
        have hpk : p.1 ≠ K0 := by
          have := hpm.2
          simp only [decide_eq_true_eq] at this
          exact this
        have : p = (K0, f) :=
          filter_le_one_mem_eq hlen hpm.1 (by simp [hpf]) hK0mem (by simp)
        exact absurd (congrArg Prod.fst this) hpk
      · rw [if_neg hne] at hc1
        cases hc1
        push_neg at hne
        refine ⟨m, rfl, ?_⟩
        intro p hp hpf
        have : p = (K0, f) :=
          filter_le_one_mem_eq hlen hp (by simp [hpf]) hK0mem (by simp)
        rw [this, ← hne]
  obtain ⟨m', hform, huniq⟩ := hshape
  -- Hence the second run finds exactly the lower-cased key.
  have hfind2 : findValue out1.rootMap f = some (goToLower title) := by
    refine findValue_of_unique ⟨(goToLower title, f), hform ▸ kv_mem_setKey m' _ f, rfl⟩ ?_
    intro p hp hpf
    rw [hform] at hp
    rcases mem_setKey hp with hpe | ⟨hpm, _⟩
    · rw [hpe]
    · exact huniq p hpm hpf
  simp only [checkRootMap, hfind2] at hc2
  rw [if_neg (by simp)] at hc2
  cases hc2
  refine ⟨?_, rfl, rfl⟩
  rw [hform]
  exact setKey_idem m' (goToLower title) f

/-- C7 witness: the amended idempotence at the claim's own single-entry
scenario. -/
theorem c7_reconcile_idempotent_witness :
    (⟨[("foo", "a.json")], none, false⟩ : ReconcileOut).rootMap =
      (⟨[("foo", "a.json")], some ("Bar", "foo", "a.json"), false⟩ : ReconcileOut).rootMap ∧
    (⟨[("foo", "a.json")], none, false⟩ : ReconcileOut).mismatch = none := by
  have := c7_reconcile_idempotent [("Bar", "a.json")] "a.json" "Foo" zeroDetails []
    ⟨[("foo", "a.json")], some ("Bar", "foo", "a.json"), false⟩
    ⟨[("foo", "a.json")], none, false⟩ (by decide) (by decide) (by decide)
  exact ⟨this.1, this.2.1⟩

theorem charListLe_iff : ∀ as bs : List Char, charListLe as bs = true ↔ ¬ List.lt bs as := by
  intro as
  induction as with
  | nil =>
    intro bs
    simp only [charListLe, true_iff]
    intro h
    cases h
  | cons a as ih =>
    intro bs
    cases bs with
    | nil =>
      simp only [charListLe]
      constructor
      · intro h; cases h
      · intro h; exact absurd (List.lt.nil a as) h
    | cons b bs =>
      rw [charListLe]
      by_cases hab : a.toNat < b.toNat
      · rw [if_pos hab]
        simp only [true_iff]
        intro h
        cases h with
        | head _ _ hba => exact absurd (hba : b.toNat < a.toNat) (Nat.lt_asymm hab)
        | tail h1 h2 _ => exact absurd (hab : a < b) h2
      · rw [if_neg hab]
        by_cases hba : b.toNat < a.toNat
        · rw [if_pos hba]
          simp only [Bool.false_eq_true, false_iff, not_not]
          exact List.lt.head _ _ hba
        · rw [if_neg hba]
          rw [ih bs]
          constructor
          · intro h hlt
            cases hlt with
            | head _ _ hh => exact absurd (hh : b.toNat < a.toNat) hba
            | tail h1 h2 h3 => exact h h3
          · intro h hlt
            exact h (List.lt.tail (fun hc => hba (hc : b.toNat < a.toNat))
              (fun hc => hab (hc : a.toNat < b.toNat)) hlt)

/-- The executable key comparison agrees with the lexicographic order on
strings. -/
theorem strLeb_iff_le (a b : String) : strLeb a b = true ↔ a ≤ b := by
  rw [strLeb, charListLe_iff, String.le_iff_toList_le]
  have hnl : (a.toList ≤ b.toList) ↔ ¬ (b.toList < a.toList) := not_lt.symm
  rw [hnl]
  constructor
  · intro h hlt
    exact h ((List.lt_iff_lex_lt _ _).mpr hlt)
  · intro h hlt
    exact h ((List.lt_iff_lex_lt _ _).mp hlt)

/-- Membership in an insertion step. -/
theorem mem_insertPair {α : Type} {x p : String × α} {l : List (String × α)}
    (hx : x ∈ insertPair p l) : x = p ∨ x ∈ l := by
  induction l with
  | nil => simpa [insertPair] using hx
  | cons q qs ih =>
    rw [insertPair] at hx
    rcases hle : strLeb p.1 q.1 with _ | _ <;> rw [hle] at hx
    · simp only [Bool.false_eq_true, if_false] at hx
      rcases List.mem_cons.mp hx with h | h
      · exact Or.inr (h ▸ List.mem_cons_self _ _)
      · rcases ih h with h2 | h2
        · exact Or.inl h2
        · exact Or.inr (List.mem_cons_of_mem _ h2)
    · simp only [if_true] at hx
      rcases List.mem_cons.mp hx with h | h
      · exact Or.inl h
      · exact Or.inr h

theorem pairwise_insertPair {α : Type} {p : String × α} {l : List (String × α)}
    (h : l.Pairwise fun a b => a.1 ≤ b.1) :
    (insertPair p l).Pairwise fun a b => a.1 ≤ b.1 := by
  induction l with
  | nil => simp [insertPair]
  | cons q qs ih =>
    rw [insertPair]
    rcases hle : strLeb p.1 q.1 with _ | _
    · simp only [Bool.false_eq_true, if_false]
      have hqp : q.1 ≤ p.1 := by
        rcases le_total p.1 q.1 with hc | hc
        · exact absurd ((strLeb_iff_le _ _).mpr hc) (by simp [hle])
        · exact hc
      obtain ⟨hq, hqs⟩ := List.pairwise_cons.mp h
      refine List.Pairwise.cons ?_ (ih hqs)
      intro x hx
      rcases mem_insertPair hx with hxe | hxm
      · exact hxe ▸ hqp
      · exact hq x hxm
    · simp only [if_true]
      have hpq : p.1 ≤ q.1 := (strLeb_iff_le _ _).mp hle
      refine List.Pairwise.cons ?_ h
      intro x hx
      rcases List.mem_cons.mp hx with hxe | hxm
      · exact hxe ▸ hpq
      · exact le_trans hpq ((List.pairwise_cons.mp h).1 x hxm)

theorem sortPairs_pairwise {α : Type} (m : List (String × α)) :
    (sortPairs m).Pairwise fun a b => a.1 ≤ b.1 := by
  induction m with
  | nil => simp [sortPairs]
  | cons p ps ih => exact pairwise_insertPair ih

theorem insertPair_of_le {α : Type} {p : String × α} {l : List (String × α)}
    (h : ∀ x ∈ l, p.1 ≤ x.1) : insertPair p l = p :: l := by
  cases l with
  | nil => rfl
  | cons q qs =>
    rw [insertPair, if_pos ((strLeb_iff_le _ _).mpr (h q (List.mem_cons_self _ _)))]

theorem sortPairs_of_pairwise {α : Type} {m : List (String × α)}
    (h : m.Pairwise fun a b => a.1 ≤ b.1) : sortPairs m = m := by
  induction m with
  | nil => rfl
  | cons p ps ih =>
    obtain ⟨hp, hps⟩ := List.pairwise_cons.mp h
    rw [sortPairs, ih hps, insertPair_of_le hp]

theorem sortPairs_idem {α : Type} (m : List (String × α)) :
    sortPairs (sortPairs m) = sortPairs m :=
  sortPairs_of_pairwise (sortPairs_pairwise m)

theorem jsonObject_getLast (ind : String) (depth : Nat)
    (fields : List (String × String)) :
    (jsonObject ind depth fields).data.getLast? = some '\x7d' := by
  cases fields with
  | nil => rfl
  | cons f fs =>
    show (_ ++ "\x7d").data.getLast? = some '\x7d'
    rw [show ∀ s : String, (s ++ "\x7d").data = s.data ++ ['\x7d'] from fun s => rfl]
    exact List.getLast?_concat _

/-- C6 counterexample: the serialized index does not follow the same
canonicalization discipline as documents — on a one-entry index the
output is two-space indented with no trailing newline, while the claim's
discipline (the document serializer's four-space unit and trailing
newline) would produce a different byte string; the last byte is a
closing brace, not a newline. -/
theorem c6_index_format_differs :
    marshalIndexMap [("foo", "a.json")] = "\x7b\n  \"foo\": \"a.json\"\n\x7d" ∧
    marshalIndexMap [("foo", "a.json")] ≠ "\x7b\n    \"foo\": \"a.json\"\n\x7d\n" ∧
    (marshalIndexMap [("foo", "a.json")]).data.getLast? ≠ some '\n' ∧
    docIndent = "    " ∧
    (RockOn.toJSON [("Foo", zeroDetails)]).data.getLast? = some '\n' := by
  refine ⟨by decide, by decide, by decide, rfl, by decide⟩

/-- C6 (amended): the serialized index has its keys in increasing
(natural string) order, serialization is insensitive to the map's
iteration order (serializing the key-sorted map gives the same bytes),
it uses a two-space indentation unit — narrower than the four-space unit
of document output — and it ends with a closing brace, not a trailing
newline. -/
theorem c6_index_sorted_no_newline :
    (∀ m : List (String × String),
      List.Sorted (· ≤ ·) ((sortPairs m).map Prod.fst) ∧
      marshalIndexMap (sortPairs m) = marshalIndexMap m ∧
      (marshalIndexMap m).data.getLast? = some '\x7d') ∧
    marshalIndexMap [("b", "y"), ("a", "x")] = "\x7b\n  \"a\": \"x\",\n  \"b\": \"y\"\n\x7d" := by
  refine ⟨?_, by decide⟩
  intro m
  refine ⟨?_, ?_, jsonObject_getLast _ _ _⟩
  · rw [List.Sorted, List.pairwise_map]
    exact sortPairs_pairwise m
  · rw [marshalIndexMap, marshalIndexMap, sortPairs_idem]

/-- C8 counterexample: a file whose name does not end in `.json` is not
always skipped — when its content is not valid JSON, the base-syntax
check fires first and the whole run terminates with the fatal status 3,
the claim's "regardless of the file's content" notwithstanding. -/
theorem c8_non_json_can_be_fatal :
    extPath "notes.txt" ≠ ".json" ∧
    mainRun envTxtInvalid flagsCheck = .exited 3 := by
  exact ⟨by decide, by decide⟩

/-- C8 (amended): a file whose name does not end in `.json` is skipped
with an advisory — leaving the loop state untouched, so processing
continues with the next file — provided its content is well-formed JSON
that merely fails to unmarshal as a Rock-on; a file with invalid base
JSON syntax terminates the run with status 3 whatever its name; run
end-to-end, a valid-JSON non-Rock-on `.txt` input exits 0. -/
theorem c8_non_json_skipped :
    (∀ (env : Env) (flags : Flags) (st : LoopSt) (f c : String) (j : JValue),
      env.readFile f = some c →
      jparse c = some j →
      decodeRockOn j = none →
      extPath f ≠ ".json" →
      st.indexLoaded = true →
      cleanPath f ≠ cleanPath st.rootFile →
      processFile env flags st f = .ok st) ∧
    (∀ (env : Env) (flags : Flags) (st : LoopSt) (f c : String),
      env.readFile f = some c →
      jparse c = none →
      processFile env flags st f = .error (.exited 3)) ∧
    mainRun envTxtNonRockon flagsCheck = .exited 0 := by
  refine ⟨?_, ?_, by decide⟩
  · intro env flags st f c j hread hparse hdec hext hidx hclean
    simp only [processFile, hread, hparse, hidx, if_true, hdec]
    rw [if_neg hclean, if_neg hext]
  · intro env flags st f c hread hparse
    simp only [processFile, hread, hparse]

/-- C8 witness: the amended conjuncts at a concrete environment. -/
theorem c8_non_json_skipped_witness :
    processFile envTxtNonRockon flagsCheck
      ⟨false, true, [], "root.json"⟩ "notes.txt" =
      .ok ⟨false, true, [], "root.json"⟩ ∧
    processFile envTxtInvalid flagsCheck
      ⟨false, true, [], "root.json"⟩ "notes.txt" = .error (.exited 3) :=
  ⟨c8_non_json_skipped.1 envTxtNonRockon flagsCheck ⟨false, true, [], "root.json"⟩
      "notes.txt" "[1, 2]" (JValue.arr [JValue.num "1", JValue.num "2"])
      (by decide) rfl rfl (by decide) rfl (by decide),
   c8_non_json_skipped.2.1 envTxtInvalid flagsCheck ⟨false, true, [], "root.json"⟩
      "notes.txt" "oops" (by decide) rfl⟩

/-- C3: the exit-status taxonomy.  Each fatal failure class terminates
the run with its own stable nonzero status — unreadable input file (1),
no files matched a pattern (2), invalid base JSON syntax in a document
(3), missing/unreadable index file (4), invalid base JSON syntax in the
index (5), failure overwriting a document (6), failure overwriting the
index (7) — a fully successful run exits 0, and under check-mode a
divergent document makes the run exit with the nonzero divergence flag
(status 1). -/
theorem c3_exit_status_taxonomy :
    (∀ (env : Env) (flags : Flags) (p f : String),
      env.argPatterns = [p] → env.glob p = [f] → env.readFile f = none →
      mainRun env flags = .exited 1) ∧
    (∀ (env : Env) (flags : Flags) (p : String) (ps : List String),
      env.argPatterns = p :: ps → env.glob p = [] →
      mainRun env flags = .exited 2) ∧
    (∀ (env : Env) (flags : Flags) (p f c : String),
      env.argPatterns = [p] → env.glob p = [f] → env.readFile f = some c →
      jparse c = none →
      mainRun env flags = .exited 3) ∧
    (∀ (env : Env) (flags : Flags) (p f c : String) (j : JValue),
      env.argPatterns = [p] → env.glob p = [f] → env.readFile f = some c →
      jparse c = some j → flags.root = "root.json" →
      env.readFile "root.json" = none →
      mainRun env flags = .exited 4) ∧
    (∀ (env : Env) (flags : Flags) (p f c rc : String) (j : JValue),
      env.argPatterns = [p] → env.glob p = [f] → env.readFile f = some c →
      jparse c = some j → flags.root = "root.json" →
      env.readFile "root.json" = some rc → jparse rc = none →
      mainRun env flags = .exited 5) ∧
    mainRun { envDivergent with writeOk := fun f => f ≠ "a.json" }
      { flagsCheck with write := true } = .exited 6 ∧
    mainRun { envDivergent with writeOk := fun f => f ≠ "root.json" }
      { flagsCheck with write := true } = .exited 7 ∧
    mainRun envBase flagsCheck = .exited 0 ∧
    mainRun envDivergent flagsCheck = .exited 1 := by
  refine ⟨?_, ?_, ?_, ?_, ?_, by decide, by decide, by decide, by decide⟩
  · intro env flags p f h1 h2 h3
    simp [mainRun, collectFiles, runFiles, processFile, h1, h2, h3]
  · intro env flags p ps h1 h2
    simp [mainRun, collectFiles, h1, h2]
  · intro env flags p f c h1 h2 h3 h4
    simp [mainRun, collectFiles, runFiles, processFile, h1, h2, h3, h4]
  · intro env flags p f c j h1 h2 h3 h4 h5 h6
    simp [mainRun, collectFiles, runFiles, processFile, h1, h2, h3, h4, h5, h6]
  · intro env flags p f c rc j h1 h2 h3 h4 h5 h6 h7
    simp [mainRun, collectFiles, runFiles, processFile, h1, h2, h3, h4, h5, h6, h7]

/-- C3 witness: the universally quantified failure classes at concrete
environments. -/
theorem c3_exit_status_taxonomy_witness :
    mainRun { envBase with readFile := fun _ => none } flagsCheck = .exited 1 ∧
    mainRun { envBase with glob := fun _ => [] } flagsCheck = .exited 2 ∧
    mainRun { envBase with readFile := fun f =>
        if f = "a.json" then some "oops" else none } flagsCheck = .exited 3 ∧
    mainRun { envBase with readFile := fun f =>
        if f = "a.json" then some "\x7b\x7d" else none } flagsCheck = .exited 4 ∧
    mainRun { envBase with readFile := fun f =>
        if f = "a.json" then some "\x7b\x7d"
        else if f = "root.json" then some "nope" else none } flagsCheck = .exited 5 :=
  ⟨c3_exit_status_taxonomy.1 _ flagsCheck "*.json" "a.json" rfl rfl rfl,
   c3_exit_status_taxonomy.2.1 _ flagsCheck "*.json" [] rfl rfl,
   c3_exit_status_taxonomy.2.2.1 _ flagsCheck "*.json" "a.json" "oops" rfl rfl rfl rfl,
   c3_exit_status_taxonomy.2.2.2.1 _ flagsCheck "*.json" "a.json" "\x7b\x7d"
     (JValue.obj []) rfl rfl rfl rfl rfl rfl,
   c3_exit_status_taxonomy.2.2.2.2.1 _ flagsCheck "*.json" "a.json" "\x7b\x7d" "nope"
     (JValue.obj []) rfl rfl rfl rfl rfl rfl rfl⟩

/-- C1: canonicalization is not idempotent on every accepted input.
`docAmpEscape` — whose description holds the literal six characters
backslash-u0026 — is accepted by `Parse`, but its canonical output
contains the two-character sequence backslash-ampersand: the inner
marshaller doubles the backslash and the post-hoc `ReplaceAll` then
rewrites the backslash-u0026 tail of that escape into `&`, leaving an
invalid JSON escape.  So `Parse` rejects the canonical output, the outer
`Canonicalize(Parse(·))` is undefined on it, and the idempotence
equation fails: the left side is `none` while the right side is `some`.
The `ReplaceAll` fix-up can never fire usefully here — the encoder only
produces backslash-u0026 for the HTML escapes the fix-up is meant to
undo, or doubled backslashes from literal text, which it corrupts. -/
theorem c1_canonicalize_breaks_on_literal_escape :
    (canonOfInput docAmpEscape).isSome = true ∧
    canonOfInput docAmpEscape =
      some ("\x7b\n    \"Foo\": \x7b\n        \"description\": \"\\&\",\n        \"version\": \"\",\n        \"website\": \"\",\n        \"containers\": \x7b\x7d\n    \x7d\n\x7d\n") ∧
    (canonOfInput docAmpEscape).bind (fun y => (jparse y).map (fun _ => true)) = none ∧
    (canonOfInput docAmpEscape).bind canonOfInput = none := by
  refine ⟨rfl, by decide, rfl, rfl⟩
